import Mathlib

/-!
# OpenCK3 build engine — verification development

Shallow embedding of `src/backend/app/build.py` (plus the pieces of
`src/backend/app/storage.py` it calls): the build pipeline
(`BuildService.build_mod` and its four stages), the per-file helpers
(`_validate_audio`, `_convert_to_dds`, `_render_descriptor`) and the job
manager (`BuildManager`: `start_build`, `get_job`, `_run_job`).

Modelling conventions:
* Python `float` progress ratios are modelled as exact rationals (`ℚ`);
  the source only ever combines the literals `1/(n+1)`, `index/total` and
  `1.0` by one multiplication and one addition.
* The filesystem is abstracted to data carried by a `Project` value:
  the recursive file listing of the project directory, the optional
  per-project texture/audio asset directories with their full
  regular-file listings (JSON sidecar files written by `upload_audio`
  live in the same directory as their tracks and appear in the listing
  like any other file; each file carries the mapping `json.load` would
  return for it) and the optional `project.json` manifest.  File copies
  performed with
  `shutil.copy2` are recorded as `FileData.verbatim`; the write performed
  by `storage.save_metadata` as `FileData.metadataDump`; `write_text` as
  `FileData.text`.
* The external converter process (`subprocess.run`) is abstracted to its
  exit status, a Boolean `convertOk` carried by each texture file, with
  the captured stderr in `convertStderr`.
* Timestamps (`created_at` / `updated_at`, `time.time()`) are dropped.
* Each callback invocation of the source becomes one `ProgressEvent` in a
  trace list; each mutation of a `BuildJob` record becomes one entry in a
  state trace.
-/

/-- One invocation of the progress callback: `callback(step, ratio, message)`. -/
structure ProgressEvent where
  step : String
  ratio : ℚ
  message : String
deriving DecidableEq, Repr

/-- `class BuildError(RuntimeError)`; `str(exc)` is the stored message. -/
structure BuildError where
  msg : String
deriving DecidableEq, Repr

/-- A regular file inside an asset directory.  `stem`/`suffix` are
`Path.stem` / `Path.suffix` (suffix includes the leading dot);
`jsonContent` is the mapping `json.load` returns when the file is opened
as JSON — only ever consulted for `.json` sidecar files, by
`storage.load_asset_metadata`; `convertOk`/`convertStderr` abstract the
external converter run on this file. -/
structure FsFile where
  stem : String
  suffix : String
  jsonContent : List (String × String) := []
  convertOk : Bool := true
  convertStderr : String := ""
deriving DecidableEq, Repr

/-- `Path.name`: stem plus suffix. -/
def FsFile.name (f : FsFile) : String := f.stem ++ f.suffix

/-- What a stage writes at a path in the working directory. -/
inductive FileData
  /-- `shutil.copy2` of a source file. -/
  | verbatim (src : FsFile)
  /-- Output produced by the external converter from `src`. -/
  | converted (src : FsFile)
  /-- `storage.save_metadata` serialising a metadata mapping. -/
  | metadataDump (m : List (String × String))
  /-- `shutil.copy2` of a project file, identified by its relative path. -/
  | projectCopy (rel : String)
  /-- `Path.write_text`. -/
  | text (s : String)
deriving DecidableEq, Repr

/-- The `project.json` manifest, parsed.  `none` fields are absent keys
(`metadata.get(key, default)` then yields the default). -/
structure Manifest where
  name : Option String := none
  version : Option String := none
  tags : Option (List String) := none
  supported_version : Option String := none
deriving DecidableEq, Repr

/-- The slice of the filesystem a build of one project reads.
`files` is `storage.iter_project_files` of the project directory
(relative paths); `ddsRoot` / `audioRoot` are the regular files of
`storage.DDS_ROOT / project_id` and `storage.AUDIO_ROOT / project_id`,
`none` when that directory does not exist; `manifest` is the parsed
`project.json`, `none` when missing. -/
structure Project where
  id : String
  files : List String := []
  ddsRoot : Option (List FsFile) := none
  audioRoot : Option (List FsFile) := none
  manifest : Option Manifest := none
deriving DecidableEq, Repr

/-- Result of running one pipeline stage: the progress-callback
invocations it made (in order), the `BuildError` it raised (if any), and
the files it wrote into the working directory. -/
structure StageResult where
  events : List ProgressEvent
  error : Option BuildError
  outputs : List (String × FileData)
deriving DecidableEq, Repr

/-- A pipeline stage, `run(projectId, workDir, onProgress)`. -/
def Stage := Project → StageResult

/-- Python `str.lower` on one character, for the ASCII range — the only
case mapping the source's suffix checks rely on: `A…Z` map to `a…z`. -/
def lowerChar (c : Char) : Char :=
  if 'A' ≤ c ∧ c ≤ 'Z' then Char.ofNat (c.toNat + 32) else c

/-- Python `str.lower`, as applied to `Path.suffix` values. -/
def str_lower (s : String) : String := ⟨s.data.map lowerChar⟩

/-- `BuildService._validate_audio` (build.py:218-221): raise unless the
lowercased suffix is in the two-entry allow-list. -/
def validate_audio (f : FsFile) : Option BuildError :=
  let allowed_extensions := [".ogg", ".wav"]
  if allowed_extensions.contains (str_lower f.suffix) then none
  else some ⟨"Unsupported audio format: " ++ f.suffix⟩

/-- `BuildService._convert_to_dds` (build.py:223-234): copy verbatim when
the source is already `.dds`; otherwise fail when no converter is
resolved, else run the converter (abstracted to its exit status) and fail
with its captured stderr on a non-zero exit.  Returns the data written at
the destination. -/
def convert_to_dds (converter : Option String) (f : FsFile) :
    Except BuildError FileData :=
  if str_lower f.suffix = ".dds" then .ok (.verbatim f)
  else
    match converter with
    | none => .error ⟨"No DDS converter (ImageMagick or texconv) available"⟩
    | some _ =>
      if f.convertOk then .ok (.converted f)
      else .error ⟨"Failed to convert " ++ f.name ++ " to DDS: " ++ f.convertStderr⟩

/-- `BuildService._collect_project_files` (build.py:114-129): copy every
project file, reporting `index/total` after each one, with
`total = len(files) or 1`. -/
def collect_project_files : Stage := fun p =>
  let files := p.files
  let total : ℕ := max files.length 1
  { events :=
      files.enum.map fun ir =>
        ⟨"collect", ((ir.1 + 1 : ℕ) : ℚ) / (total : ℚ), "Copied " ++ ir.2⟩
    error := none
    outputs := files.map fun rel => (rel, .projectCopy rel) }

/-- Loop body of `BuildService._convert_dds_assets` (build.py:144-149),
1-indexed from `i`: convert each file (which can raise, aborting the
loop), then report `index/total`. -/
def ddsLoop (converter : Option String) (total : ℕ) :
    ℕ → List FsFile → StageResult
  | _, [] => ⟨[], none, []⟩
  | i, f :: fs =>
    match convert_to_dds converter f with
    | .error e => ⟨[], some e, []⟩
    | .ok data =>
      let rest := ddsLoop converter total (i + 1) fs
      { events := ⟨"dds", (i : ℚ) / (total : ℚ), "Processed " ++ f.name⟩ :: rest.events
        error := rest.error
        outputs := ("gfx/" ++ f.stem ++ ".dds", data) :: rest.outputs }

/-- `BuildService._convert_dds_assets` (build.py:131-149): no-op when the
texture asset directory is missing, else convert every file into
`gfx/<stem>.dds` with `total = len(files) or 1`. -/
def convert_dds_assets (converter : Option String) : Stage := fun p =>
  match p.ddsRoot with
  | none => ⟨[], none, []⟩
  | some files => ddsLoop converter (max files.length 1) 1 files

/-- `storage.load_asset_metadata` (storage.py:58-63): the sidecar path is
`asset_path.with_suffix(asset_path.suffix + METADATA_EXTENSION)` — the
file named `name + ".json"` in the *same directory* as the asset (which
is where `api.upload_audio` writes it); when that file exists its parsed
JSON is returned, otherwise the empty mapping. -/
def load_asset_metadata (dirFiles : List FsFile) (f : FsFile) :
    List (String × String) :=
  match dirFiles.find? (fun g => g.name == f.name ++ ".json") with
  | some g => g.jsonContent
  | none => []

/-- The sidecar write for one audio file (build.py:168-171):
`metadata = storage.load_asset_metadata(file_path)`, then `if metadata:`
saves it only when the mapping is non-empty. -/
def sidecarOuts (dirFiles : List FsFile) (f : FsFile) :
    List (String × FileData) :=
  let metadata := load_asset_metadata dirFiles f
  if metadata ≠ [] then
    [("sound/" ++ f.name ++ ".json", .metadataDump metadata)]
  else []

/-- Loop body of `BuildService._package_audio_tracks` (build.py:164-173),
1-indexed from `i`: validate (raising aborts before any copy of that
file), copy the file, write the sidecar metadata when it is non-empty
(`if metadata:`), then report `index/total`. -/
def audioLoop (dirFiles : List FsFile) (total : ℕ) :
    ℕ → List FsFile → StageResult
  | _, [] => ⟨[], none, []⟩
  | i, f :: fs =>
    match validate_audio f with
    | some e => ⟨[], some e, []⟩
    | none =>
      let rest := audioLoop dirFiles total (i + 1) fs
      { events := ⟨"audio", (i : ℚ) / (total : ℚ), "Packaged " ++ f.name⟩ :: rest.events
        error := rest.error
        outputs := ("sound/" ++ f.name, .verbatim f) ::
          sidecarOuts dirFiles f ++ rest.outputs }

/-- `BuildService._package_audio_tracks` (build.py:151-173): no-op when
the audio asset directory is missing, else package every file into
`sound/` with `total = len(files) or 1`. -/
def package_audio_tracks : Stage := fun p =>
  match p.audioRoot with
  | none => ⟨[], none, []⟩
  | some files => audioLoop files (max files.length 1) 1 files

/-- The line list built by `BuildService._render_descriptor`
(build.py:203-216). -/
def render_descriptor_lines (project_id : String) (metadata : Manifest) :
    List String :=
  let name := metadata.name.getD ("OpenCK3 " ++ project_id)
  let version := metadata.version.getD "1.0"
  let tags := metadata.tags.getD []
  let supported_version := metadata.supported_version.getD "1.11.*"
  let lines := ["version=\"" ++ version ++ "\"",
                "name=\"" ++ name ++ "\"",
                "supported_version=\"" ++ supported_version ++ "\""]
  if tags ≠ [] then
    lines ++ ["tags=\x7b " ++ String.intercalate "," tags ++ " \x7d"]
  else lines

/-- `BuildService._render_descriptor`: the rendered descriptor text. -/
def render_descriptor (project_id : String) (metadata : Manifest) : String :=
  String.intercalate "\n" (render_descriptor_lines project_id metadata) ++ "\n"

/-- `BuildService._write_descriptor` (build.py:175-191): read the
manifest when present (missing file yields an empty mapping), render the
descriptor into `descriptor.mod`, then report completion. -/
def write_descriptor : Stage := fun p =>
  let metadata := p.manifest.getD {}
  { events := [⟨"descriptor", 1, "Descriptor generated"⟩]
    error := none
    outputs := [("descriptor.mod", .text (render_descriptor p.id metadata))] }

/-- The `steps` list of `BuildService.build_mod` (build.py:70-75), each
with `step.__name__.removeprefix("_")`. -/
def buildSteps (converter : Option String) : List (String × Stage) :=
  [("collect_project_files", collect_project_files),
   ("convert_dds_assets", convert_dds_assets converter),
   ("package_audio_tracks", package_audio_tracks),
   ("write_descriptor", write_descriptor)]

/-- The per-stage loop of `build_mod` (build.py:82-102), 1-indexed from
`i`: report `(index - 1) * span` before each stage, remap the stage's own
sub-progress `ratio` to `(index - 1) * span + ratio * span`, and stop at
the first stage error. -/
def runSteps (p : Project) (span : ℚ) :
    ℕ → List (String × Stage) → List ProgressEvent × Option BuildError
  | _, [] => ([], none)
  | i, (stepName, st) :: rest =>
    let boundary : ProgressEvent :=
      ⟨stepName, ((i : ℚ) - 1) * span, "Running " ++ stepName.replace "_" " "⟩
    let res := st p
    let mapped := res.events.map fun e =>
      ⟨e.step, ((i : ℚ) - 1) * span + e.ratio * span, e.message⟩
    match res.error with
    | some e => (boundary :: mapped, some e)
    | none =>
      let next := runSteps p span (i + 1) rest
      (boundary :: mapped ++ next.1, next.2)

/-- `BuildService._archive_build` (build.py:196-201): the archive file
name `{project_id}-{timestamp}.zip` under the build root; the timestamp
is abstracted to a parameter. -/
def archive_build (project_id : String) (timestamp : ℕ) : String :=
  "builds/" ++ project_id ++ "-" ++ toString timestamp ++ ".zip"

/-- Result of `BuildService.build_mod`: the full callback trace, the
raised error (if any) and the archive path returned on success. -/
structure BuildResult where
  events : List ProgressEvent
  error : Option BuildError
  archive : Option String
deriving DecidableEq, Repr

/-- `BuildService.build_mod` (build.py:62-109): run the four stages with
`span = 1 / (len(steps) + 1)`, then report `len(steps) * span`, archive,
and report `1.0`.  A stage error propagates out of `build_mod` (the
partial callback trace has still happened). -/
def build_mod (converter : Option String) (timestamp : ℕ) (p : Project) :
    BuildResult :=
  let steps := buildSteps converter
  let span : ℚ := 1 / ((steps.length : ℚ) + 1)
  let run := runSteps p span 1 steps
  match run.2 with
  | some e => ⟨run.1, some e, none⟩
  | none =>
    ⟨run.1 ++ [⟨"archive", (steps.length : ℚ) * span, "Creating archive"⟩,
               ⟨"archive", 1, "Build complete"⟩],
      none, some (archive_build p.id timestamp)⟩

/-- A `BuildJob` record (build.py:24-35), timestamps dropped. -/
structure BuildJob where
  id : String
  project_id : String
  status : String := "queued"
  progress : ℚ := 0
  message : String := "Queued"
  artifact_path : Option String := none
deriving DecidableEq, Repr

/-- A status is terminal when it is `completed` or `failed`. -/
def isTerminal (status : String) : Bool :=
  status = "completed" || status = "failed"

/-- The sequence of states of one job's record, from creation through
`BuildManager._run_job` (build.py:283-309): the `queued` record inserted
by `start_build`, the unlocked `running`/"Starting build" write, one
state per `update` callback invocation (each sets `status`, `progress`
and `message` together), and the terminal write (`completed` with the
archive path and progress `1.0`, or `failed` with `str(exc)` and
untouched `progress`/`artifact_path`). -/
def jobTrace (converter : Option String) (timestamp : ℕ) (jobId : String)
    (p : Project) : List BuildJob :=
  let init : BuildJob := { id := jobId, project_id := p.id }
  let started : BuildJob := { init with status := "running", message := "Starting build" }
  let res := build_mod converter timestamp p
  let updates : List BuildJob := res.events.map fun e =>
    { id := jobId, project_id := p.id, status := "running",
      progress := e.ratio, message := e.message, artifact_path := none }
  let beforeTerminal := init :: started :: updates
  let last := beforeTerminal.getLastD init
  match res.error with
  | none =>
    beforeTerminal ++
      [{ last with status := "completed", progress := 1,
                   message := "Build completed", artifact_path := res.archive }]
  | some e =>
    beforeTerminal ++ [{ last with status := "failed", message := e.msg }]

/-- The ratio sequence `i/t, (i+1)/t, …, (i+k-1)/t` reported by a stage
loop that starts at 1-based index `i` and processes `k` files. -/
def ramp (t : ℕ) (i k : ℕ) : List ℚ :=
  (List.range k).map fun j => ((i + j : ℕ) : ℚ) / (t : ℚ)

/-- A well-behaved stage: its reported sub-progress ratios form a
non-decreasing chain inside `[0, 1]`. -/
def stageOK (st : Stage) : Prop :=
  ∀ p, List.Chain' (· ≤ ·) ((st p).events.map ProgressEvent.ratio) ∧
    ∀ x ∈ (st p).events.map ProgressEvent.ratio, 0 ≤ x ∧ x ≤ 1

/-- The remapped ratio of a stage event inside the pipeline slice for
1-indexed stage `i`. -/
def sliceRatio (span : ℚ) (i : ℕ) (r : ℚ) : ℚ := ((i : ℚ) - 1) * span + r * span

/-- Every stage of the pipeline raises only errors with non-empty
messages. -/
def errOK (st : Stage) : Prop :=
  ∀ p e, (st p).error = some e → e.msg ≠ ""

/-! ## The job registry (`BuildManager`)

Python objects live on a heap and `self.jobs: Dict[str, BuildJob]` stores
object references; `get_job` returns `self.jobs.get(job_id)` — the stored
reference itself, not a copy — and `_run_job`'s `update` closure and
terminal writes mutate the fields of that same object in place.  We model
the heap as a list of `BuildJob` values indexed by allocation order and a
reference as the index; the registry dictionary maps job ids to
references. -/

structure Registry where
  dict : List (String × ℕ)
  heap : List BuildJob
deriving DecidableEq, Repr

def Registry.empty : Registry := ⟨[], []⟩

/-- New `BuildJob(id=job_id, project_id=project_id)` as created by
`BuildManager.start_build` (build.py:266-268). -/
def initialJob (jobId project_id : String) : BuildJob :=
  { id := jobId, project_id := project_id }

/-- `BuildManager.start_build` (build.py:266-273), up to spawning the
worker thread: allocate the job object, store its reference in
`self.jobs`, and return that same reference to the caller. -/
def start_build (s : Registry) (jobId project_id : String) : Registry × ℕ :=
  let ref := s.heap.length
  (⟨s.dict ++ [(jobId, ref)], s.heap ++ [initialJob jobId project_id]⟩, ref)

/-- `BuildManager.get_job` (build.py:275-277): `self.jobs.get(job_id)` —
the reference stored in the dictionary, not a copy of the record. -/
def get_job (s : Registry) (jobId : String) : Option ℕ :=
  s.dict.lookup jobId

/-- Dereference: the record a returned reference currently denotes. -/
def readJob (s : Registry) (r : ℕ) : Option BuildJob :=
  s.heap.get? r

def heapModify : List BuildJob → ℕ → (BuildJob → BuildJob) → List BuildJob
  | [], _, _ => []
  | j :: t, 0, f => f j :: t
  | j :: t, n + 1, f => j :: heapModify t n f

/-- An in-place field mutation of the job object behind reference `r`,
as performed by `_run_job`'s `update` closure and terminal writes
(build.py:288-309). -/
def update_job (s : Registry) (r : ℕ) (f : BuildJob → BuildJob) : Registry :=
  { s with heap := heapModify s.heap r f }

/-- The `update` callback body (build.py:288-293), timestamps dropped. -/
def updateProgress (r : ℚ) (message : String) (j : BuildJob) : BuildJob :=
  { j with status := "running", progress := r, message := message }

/-! ## Concrete fixtures -/

/-- A project with no files, no asset directories and no manifest. -/
def emptyProject : Project := { id := "abc" }

def oggFile : FsFile := { stem := "a", suffix := ".ogg" }

def wavFile : FsFile := { stem := "c", suffix := ".wav" }

def mp3File : FsFile := { stem := "b", suffix := ".mp3" }

def pngFile : FsFile := { stem := "icon", suffix := ".png" }

def ddsFile : FsFile := { stem := "flag", suffix := ".dds" }

/-- An audio track whose sidecar `track.ogg.json` exists in the same
directory (see `sidecarProject`). -/
def trackFile : FsFile := { stem := "track", suffix := ".ogg" }

/-- The sidecar file `api.upload_audio` writes beside `track.ogg`:
`Path("track.ogg.json")` has stem `"track.ogg"` and suffix `".json"`. -/
def trackSidecar : FsFile :=
  { stem := "track.ogg", suffix := ".json", jsonContent := [("artist", "x")] }

/-- The audio directory of a project after one upload with metadata:
the track and its sidecar, side by side. -/
def sidecarProject : Project :=
  { id := "p", audioRoot := some [trackFile, trackSidecar] }

/-- The same directory with the sidecar iterated first. -/
def sidecarFirstProject : Project :=
  { id := "p", audioRoot := some [trackSidecar, trackFile] }

/-- One file of each kind, to exercise the full pipeline. -/
def demoProject : Project :=
  { id := "abc", files := ["a.txt"], ddsRoot := some [ddsFile],
    audioRoot := some [oggFile] }

/-- Audio directory holding a file that fails validation between two
valid ones. -/
def audioMixProject : Project :=
  { id := "p", audioRoot := some [oggFile, mp3File, wavFile] }

def audioOkProject : Project :=
  { id := "p", audioRoot := some [oggFile, wavFile] }

/-! ## Progress-ratio helper lemmas -/

theorem ramp_zero (t i : ℕ) : ramp t i 0 = [] := rfl

theorem ramp_succ (t i k : ℕ) :
    ramp t i (k + 1) = ((i : ℚ) / (t : ℚ)) :: ramp t (i + 1) k := by
  simp only [ramp, List.range_succ_eq_map, List.map_cons, List.map_map]
  congr 1
  apply List.map_congr_left
  intro j _
  simp only [Function.comp_apply]
  push_cast
  ring

theorem ramp_chain (t i k : ℕ) : List.Chain' (· ≤ ·) (ramp t i k) := by
  induction k generalizing i with
  | zero => simp [ramp_zero]
  | succ k ih =>
    rw [ramp_succ]
    rcases k with _ | k
    · simp [ramp_zero]
    · rw [ramp_succ]
      refine List.Chain'.cons ?_ ?_
      · apply div_le_div_of_nonneg_right _ (by positivity)
        exact_mod_cast Nat.le_succ i
      · rw [← ramp_succ]; exact ih (i + 1)

theorem ramp_mem_bounds (t i k : ℕ) (ht : 1 ≤ t) (hi : 1 ≤ i)
    (hik : i + k ≤ t + 1) : ∀ x ∈ ramp t i k, 0 ≤ x ∧ x ≤ 1 := by
  intro x hx
  simp only [ramp, List.mem_map, List.mem_range] at hx
  obtain ⟨j, hj, rfl⟩ := hx
  have ht' : (0 : ℚ) < (t : ℚ) := by exact_mod_cast ht
  constructor
  · positivity
  · rw [div_le_one ht']
    exact_mod_cast (by omega : i + j ≤ t)

/-- A chain stays a chain after prepending a lower bound of its elements. -/
theorem chain'_cons_bound (a : ℚ) (l : List ℚ)
    (h : List.Chain' (· ≤ ·) l) (hb : ∀ x ∈ l, a ≤ x) :
    List.Chain' (· ≤ ·) (a :: l) :=
  List.chain'_cons'.mpr ⟨fun y hy => hb y (List.mem_of_mem_head? hy), h⟩

/-- Two chains separated by a cut value concatenate to a chain. -/
theorem chain'_append_cut (c : ℚ) (l₁ l₂ : List ℚ)
    (h₁ : List.Chain' (· ≤ ·) l₁) (h₂ : List.Chain' (· ≤ ·) l₂)
    (hb₁ : ∀ x ∈ l₁, x ≤ c) (hb₂ : ∀ y ∈ l₂, c ≤ y) :
    List.Chain' (· ≤ ·) (l₁ ++ l₂) := by
  refine h₁.append h₂ ?_
  intro x hx y hy
  exact (hb₁ x (List.mem_of_mem_getLast? hx)).trans
    (hb₂ y (List.mem_of_mem_head? hy))

/-- The ratios reported by `_collect_project_files` are the ramp
`1/total, …, n/total`. -/
theorem enumFrom_map_ramp {α : Type} (t : ℕ) (l : List α) :
    ∀ n, ((List.enumFrom n l).map fun ir => ((ir.1 + 1 : ℕ) : ℚ) / (t : ℚ)) =
      ramp t (n + 1) l.length := by
  induction l with
  | nil => intro n; rfl
  | cons a l ih =>
    intro n
    simp only [List.enumFrom, List.map_cons, List.length_cons, ramp_succ]
    exact congrArg _ (ih (n + 1))

theorem collect_ratios (p : Project) :
    (collect_project_files p).events.map ProgressEvent.ratio =
      ramp (max p.files.length 1) 1 p.files.length := by
  have := enumFrom_map_ramp (α := String) (max p.files.length 1) p.files 0
  simpa [collect_project_files, List.enum, List.map_map, Function.comp] using this

theorem ddsLoop_ratios (c : Option String) (t : ℕ) :
    ∀ (fs : List FsFile) (i : ℕ), ∃ k ≤ fs.length,
      (ddsLoop c t i fs).events.map ProgressEvent.ratio = ramp t i k := by
  intro fs
  induction fs with
  | nil => exact fun i => ⟨0, Nat.le_refl 0, rfl⟩
  | cons f fs ih =>
    intro i
    cases h : convert_to_dds c f with
    | error e => exact ⟨0, Nat.zero_le _, by simp [ddsLoop, h, ramp_zero]⟩
    | ok data =>
      obtain ⟨k, hk, hr⟩ := ih (i + 1)
      exact ⟨k + 1, by simp only [List.length_cons]; omega, by simp [ddsLoop, h, ramp_succ, hr]⟩

theorem audioLoop_ratios (ds : List FsFile) (t : ℕ) :
    ∀ (fs : List FsFile) (i : ℕ), ∃ k ≤ fs.length,
      (audioLoop ds t i fs).events.map ProgressEvent.ratio = ramp t i k := by
  intro fs
  induction fs with
  | nil => exact fun i => ⟨0, Nat.le_refl 0, rfl⟩
  | cons f fs ih =>
    intro i
    cases h : validate_audio f with
    | some e => exact ⟨0, Nat.zero_le _, by simp [audioLoop, h, ramp_zero]⟩
    | none =>
      obtain ⟨k, hk, hr⟩ := ih (i + 1)
      exact ⟨k + 1, by simp only [List.length_cons]; omega, by simp [audioLoop, h, ramp_succ, hr]⟩

theorem ramp_stage_bounds (t k : ℕ) (hk : k ≤ t) (ht : 1 ≤ t) :
    ∀ x ∈ ramp t 1 k, 0 ≤ x ∧ x ≤ 1 :=
  ramp_mem_bounds t 1 k ht (Nat.le_refl 1) (by omega)

theorem collect_stageOK : stageOK collect_project_files := by
  intro p
  rw [collect_ratios]
  exact ⟨ramp_chain _ _ _,
    ramp_stage_bounds _ _ (Nat.le_max_left _ _) (Nat.le_max_right _ _)⟩

theorem dds_stageOK (c : Option String) : stageOK (convert_dds_assets c) := by
  intro p
  cases hroot : p.ddsRoot with
  | none => simp [convert_dds_assets, hroot]
  | some files =>
    obtain ⟨k, hk, hr⟩ := ddsLoop_ratios c (max files.length 1) files 1
    simp only [convert_dds_assets, hroot, hr]
    exact ⟨ramp_chain _ _ _,
      ramp_stage_bounds _ _ (hk.trans (Nat.le_max_left _ _)) (Nat.le_max_right _ _)⟩

theorem audio_stageOK : stageOK package_audio_tracks := by
  intro p
  cases hroot : p.audioRoot with
  | none => simp [package_audio_tracks, hroot]
  | some files =>
    obtain ⟨k, hk, hr⟩ := audioLoop_ratios files (max files.length 1) files 1
    simp only [package_audio_tracks, hroot, hr]
    exact ⟨ramp_chain _ _ _,
      ramp_stage_bounds _ _ (hk.trans (Nat.le_max_left _ _)) (Nat.le_max_right _ _)⟩

theorem descriptor_stageOK : stageOK write_descriptor := by
  intro p
  refine ⟨by simp [write_descriptor], ?_⟩
  intro x hx
  simp [write_descriptor] at hx
  simp [hx]

/-- Chain and bounds for the callback trace of the pipeline loop: with a
non-negative span and well-behaved stages, the reported overall ratios
are non-decreasing and lie between `(i-1)·span` and
`(i-1+steps.length)·span`. -/
theorem runSteps_ok (p : Project) (span : ℚ) (hspan : 0 ≤ span) :
    ∀ (steps : List (String × Stage)) (i : ℕ),
      (∀ s ∈ steps, stageOK s.2) →
      List.Chain' (· ≤ ·) ((runSteps p span i steps).1.map ProgressEvent.ratio) ∧
      ∀ x ∈ (runSteps p span i steps).1.map ProgressEvent.ratio,
        ((i : ℚ) - 1) * span ≤ x ∧ x ≤ ((i : ℚ) - 1 + steps.length) * span := by
  intro steps
  induction steps with
  | nil => intro i _; constructor <;> simp [runSteps]
  | cons s rest ih =>
    intro i hok
    obtain ⟨nm, st⟩ := s
    have hst : stageOK st := hok _ (List.mem_cons_self _ _)
    have hrest : ∀ s ∈ rest, stageOK s.2 := fun s hs => hok s (List.mem_cons_of_mem _ hs)
    obtain ⟨hchain_st, hbnd_st⟩ := hst p
    have hlen : ((0 : ℚ)) ≤ (rest.length : ℚ) := by positivity
    have hstep_le : ((i : ℚ) - 1) * span ≤ (i : ℚ) * span :=
      mul_le_mul_of_nonneg_right (by linarith) hspan
    -- bounds for the remapped stage events
    have hmap_bnd : ∀ x ∈ ((st p).events.map ProgressEvent.ratio).map
        (sliceRatio span i),
        ((i : ℚ) - 1) * span ≤ x ∧ x ≤ (i : ℚ) * span := by
      intro x hx
      obtain ⟨r, hr, rfl⟩ := List.mem_map.mp hx
      obtain ⟨hr0, hr1⟩ := hbnd_st r hr
      constructor
      · exact le_add_of_nonneg_right (mul_nonneg hr0 hspan)
      · have : r * span ≤ 1 * span := mul_le_mul_of_nonneg_right hr1 hspan
        simp only [sliceRatio]
        linarith
    have hmap_chain : List.Chain' (· ≤ ·)
        (((st p).events.map ProgressEvent.ratio).map (sliceRatio span i)) := by
      refine (List.chain'_map _).mpr (List.Chain'.imp ?_ hchain_st)
      intro a b hab
      exact add_le_add_left (mul_le_mul_of_nonneg_right hab hspan) _
    cases herr : (st p).error with
    | some e =>
      have hgoal : (runSteps p span i ((nm, st) :: rest)).1.map ProgressEvent.ratio =
          (((i : ℚ) - 1) * span) ::
            ((st p).events.map ProgressEvent.ratio).map (sliceRatio span i) := by
        simp [runSteps, herr, List.map_map, sliceRatio, Function.comp]
      rw [hgoal]
      constructor
      · exact chain'_cons_bound _ _ hmap_chain (fun x hx => (hmap_bnd x hx).1)
      · intro x hx
        rcases List.mem_cons.mp hx with rfl | hx'
        · refine ⟨le_refl _, ?_⟩
          apply mul_le_mul_of_nonneg_right _ hspan
          simp only [List.length_cons]
          push_cast
          linarith
        · obtain ⟨h1, h2⟩ := hmap_bnd x hx'
          refine ⟨h1, h2.trans ?_⟩
          apply mul_le_mul_of_nonneg_right _ hspan
          simp only [List.length_cons]
          push_cast
          linarith
    | none =>
      obtain ⟨hchain_r, hbnd_r⟩ := ih (i + 1) hrest
      have hnext_lb : ∀ x ∈ (runSteps p span (i + 1) rest).1.map ProgressEvent.ratio,
          (i : ℚ) * span ≤ x := by
        intro x hx
        have := (hbnd_r x hx).1
        push_cast at this
        linarith
      have hnext_ub : ∀ x ∈ (runSteps p span (i + 1) rest).1.map ProgressEvent.ratio,
          x ≤ ((i : ℚ) - 1 + ((rest.length : ℚ) + 1)) * span := by
        intro x hx
        have := (hbnd_r x hx).2
        push_cast at this
        have heq : ((i : ℚ) + 1 - 1 + (rest.length : ℚ)) = ((i : ℚ) - 1 + ((rest.length : ℚ) + 1)) := by ring
        rw [heq] at this
        exact this
      have hgoal : (runSteps p span i ((nm, st) :: rest)).1.map ProgressEvent.ratio =
          (((i : ℚ) - 1) * span) ::
            (((st p).events.map ProgressEvent.ratio).map (sliceRatio span i) ++
              (runSteps p span (i + 1) rest).1.map ProgressEvent.ratio) := by
        simp [runSteps, herr, List.map_map, sliceRatio, Function.comp]
      rw [hgoal]
      constructor
      · refine chain'_cons_bound _ _ ?_ ?_
        · refine chain'_append_cut ((i : ℚ) * span) _ _ hmap_chain hchain_r
            (fun x hx => (hmap_bnd x hx).2) hnext_lb
        · intro x hx
          rcases List.mem_append.mp hx with hx' | hx'
          · exact (hmap_bnd x hx').1
          · exact hstep_le.trans (hnext_lb x hx')
      · intro x hx
        have hub : ((i : ℚ) - 1 + (((nm, st) :: rest).length : ℚ)) * span =
            ((i : ℚ) - 1 + ((rest.length : ℚ) + 1)) * span := by
          simp only [List.length_cons]; push_cast; ring
        rw [hub]
        rcases List.mem_cons.mp hx with rfl | hx'
        · refine ⟨le_refl _, mul_le_mul_of_nonneg_right (by linarith) hspan⟩
        · rcases List.mem_append.mp hx' with hx'' | hx''
          · obtain ⟨h1, h2⟩ := hmap_bnd x hx''
            refine ⟨h1, h2.trans (mul_le_mul_of_nonneg_right (by linarith) hspan)⟩
          · exact ⟨hstep_le.trans (hnext_lb x hx''), hnext_ub x hx''⟩

/-! ## Small list and string helpers -/

theorem getLastD_cases {α : Type} (l : List α) (d : α) :
    l.getLastD d = d ∨ l.getLastD d ∈ l := by
  induction l generalizing d with
  | nil => exact Or.inl rfl
  | cons a t ih =>
    rw [List.getLastD_cons]
    rcases ih a with h | h
    · exact Or.inr (by rw [h]; exact List.mem_cons_self a t)
    · exact Or.inr (List.mem_cons_of_mem a h)

theorem map_getLastD {α β : Type} (f : α → β) (l : List α) (d : α) :
    (l.map f).getLastD (f d) = f (l.getLastD d) := by
  induction l generalizing d with
  | nil => rfl
  | cons a t ih => simp only [List.map_cons, List.getLastD_cons]; exact ih a

theorem chain'_append_getLastD (l : List ℚ) (d : ℚ)
    (h : List.Chain' (· ≤ ·) l) :
    List.Chain' (· ≤ ·) (l ++ [l.getLastD d]) := by
  induction l generalizing d with
  | nil => simp
  | cons a t ih =>
    rw [List.getLastD_cons]
    cases t with
    | nil => simp
    | cons b t' =>
      have hab : a ≤ b := List.chain'_cons.mp h |>.1
      have ht : List.Chain' (· ≤ ·) (b :: t') := List.chain'_cons.mp h |>.2
      have := ih (d := a) ht
      exact List.chain'_cons.mpr ⟨hab, this⟩

theorem append_left_ne_empty (a b : String) (ha : a.length ≠ 0) :
    a ++ b ≠ "" := by
  intro h
  have hlen := congrArg String.length h
  simp only [String.length_append] at hlen
  have : String.length "" = 0 := rfl
  omega

/-! ## Error messages are never empty -/

theorem validate_audio_msg (f : FsFile) (e : BuildError)
    (h : validate_audio f = some e) : e.msg ≠ "" := by
  simp only [validate_audio] at h
  split at h
  · exact absurd h (by simp)
  · cases h
    exact append_left_ne_empty _ _ (by decide)

theorem convert_to_dds_msg (c : Option String) (f : FsFile) (e : BuildError)
    (h : convert_to_dds c f = .error e) : e.msg ≠ "" := by
  unfold convert_to_dds at h
  split at h
  · exact absurd h (by simp)
  · cases c with
    | none => cases h; decide
    | some cv =>
      simp only at h
      split at h
      · exact absurd h (by simp)
      · cases h
        apply append_left_ne_empty
        simp only [String.length_append]
        have h1 : ("Failed to convert ").length ≠ 0 := by decide
        omega

theorem ddsLoop_error_msg (c : Option String) (t : ℕ) :
    ∀ (fs : List FsFile) (i : ℕ) (e : BuildError),
      (ddsLoop c t i fs).error = some e → e.msg ≠ "" := by
  intro fs
  induction fs with
  | nil => intro i e h; exact absurd h (by simp [ddsLoop])
  | cons f fs ih =>
    intro i e h
    cases hc : convert_to_dds c f with
    | error e' =>
      simp [ddsLoop, hc] at h
      exact h ▸ convert_to_dds_msg c f e' hc
    | ok data =>
      simp [ddsLoop, hc] at h
      exact ih (i + 1) e h

theorem audioLoop_error_msg (ds : List FsFile) (t : ℕ) :
    ∀ (fs : List FsFile) (i : ℕ) (e : BuildError),
      (audioLoop ds t i fs).error = some e → e.msg ≠ "" := by
  intro fs
  induction fs with
  | nil => intro i e h; exact absurd h (by simp [audioLoop])
  | cons f fs ih =>
    intro i e h
    cases hc : validate_audio f with
    | some e' =>
      simp [audioLoop, hc] at h
      exact h ▸ validate_audio_msg f e' hc
    | none =>
      simp [audioLoop, hc] at h
      exact ih (i + 1) e h

theorem collect_errOK : errOK collect_project_files := by
  intro p e h
  exact absurd h (by simp [collect_project_files])

theorem dds_errOK (c : Option String) : errOK (convert_dds_assets c) := by
  intro p e h
  cases hroot : p.ddsRoot with
  | none => rw [convert_dds_assets, hroot] at h; exact absurd h (by simp)
  | some files =>
    rw [convert_dds_assets, hroot] at h
    exact ddsLoop_error_msg c _ files 1 e h

theorem audio_errOK : errOK package_audio_tracks := by
  intro p e h
  cases hroot : p.audioRoot with
  | none => rw [package_audio_tracks, hroot] at h; exact absurd h (by simp)
  | some files =>
    rw [package_audio_tracks, hroot] at h
    exact audioLoop_error_msg files _ files 1 e h

theorem descriptor_errOK : errOK write_descriptor := by
  intro p e h
  exact absurd h (by simp [write_descriptor])

theorem runSteps_error (p : Project) (span : ℚ) :
    ∀ (steps : List (String × Stage)) (i : ℕ) (e : BuildError),
      (runSteps p span i steps).2 = some e →
      ∃ s ∈ steps, (s.2 p).error = some e := by
  intro steps
  induction steps with
  | nil => intro i e h; exact absurd h (by simp [runSteps])
  | cons s rest ih =>
    intro i e h
    obtain ⟨nm, st⟩ := s
    cases herr : (st p).error with
    | some e' =>
      simp only [runSteps, herr] at h
      cases h
      exact ⟨(nm, st), List.mem_cons_self _ _, herr⟩
    | none =>
      simp only [runSteps, herr] at h
      obtain ⟨s', hs', he'⟩ := ih (i + 1) e h
      exact ⟨s', List.mem_cons_of_mem _ hs', he'⟩

/-! ## The pipeline as a whole -/

theorem buildSteps_stageOK (c : Option String) :
    ∀ s ∈ buildSteps c, stageOK s.2 := by
  intro s hs
  simp only [buildSteps, List.mem_cons, List.not_mem_nil, or_false] at hs
  rcases hs with rfl | rfl | rfl | rfl
  · exact collect_stageOK
  · exact dds_stageOK c
  · exact audio_stageOK
  · exact descriptor_stageOK

theorem buildSteps_errOK (c : Option String) :
    ∀ s ∈ buildSteps c, errOK s.2 := by
  intro s hs
  simp only [buildSteps, List.mem_cons, List.not_mem_nil, or_false] at hs
  rcases hs with rfl | rfl | rfl | rfl
  · exact collect_errOK
  · exact dds_errOK c
  · exact audio_errOK
  · exact descriptor_errOK

/-- `build_mod`, with the concrete spans of the four-stage pipeline
(`span = 1/5`, archive boundary at `4/5`) made explicit. -/
theorem build_mod_cases (c : Option String) (ts : ℕ) (p : Project) :
    build_mod c ts p =
      match (runSteps p (1 / 5) 1 (buildSteps c)).2 with
      | some e => ⟨(runSteps p (1 / 5) 1 (buildSteps c)).1, some e, none⟩
      | none => ⟨(runSteps p (1 / 5) 1 (buildSteps c)).1 ++
          [⟨"archive", 4 / 5, "Creating archive"⟩,
           ⟨"archive", 1, "Build complete"⟩],
          none, some (archive_build p.id ts)⟩ := by
  have h1 : (1 : ℚ) / (((buildSteps c).length : ℚ) + 1) = 1 / 5 := by
    norm_num [buildSteps]
  have h2 : ((buildSteps c).length : ℚ) * (1 / 5) = 4 / 5 := by
    norm_num [buildSteps]
  simp only [build_mod]
  rw [h1, h2]

theorem build_mod_error_msg (c : Option String) (ts : ℕ) (p : Project)
    (e : BuildError) (h : (build_mod c ts p).error = some e) : e.msg ≠ "" := by
  rw [build_mod_cases] at h
  cases herr : (runSteps p (1 / 5) 1 (buildSteps c)).2 with
  | none => rw [herr] at h; exact absurd h (by simp)
  | some e' =>
    rw [herr] at h
    simp only at h
    cases h
    obtain ⟨s, hs, he⟩ := runSteps_error p (1 / 5) (buildSteps c) 1 e herr
    exact buildSteps_errOK c s hs p e he

/-- Chain, global bounds, and the failure bound `4/5` for the callback
trace of `build_mod`. -/
theorem build_mod_ok (c : Option String) (ts : ℕ) (p : Project) :
    List.Chain' (· ≤ ·) ((build_mod c ts p).events.map ProgressEvent.ratio) ∧
    (∀ x ∈ (build_mod c ts p).events.map ProgressEvent.ratio, 0 ≤ x ∧ x ≤ 1) ∧
    ((build_mod c ts p).error ≠ none →
      ∀ x ∈ (build_mod c ts p).events.map ProgressEvent.ratio, x ≤ 4 / 5) := by
  have hspan0 : (0 : ℚ) ≤ 1 / 5 := by norm_num
  obtain ⟨hchain, hbnd⟩ :=
    runSteps_ok p (1 / 5) hspan0 (buildSteps c) 1 (buildSteps_stageOK c)
  have hbnd' : ∀ x ∈ (runSteps p (1 / 5) 1 (buildSteps c)).1.map ProgressEvent.ratio,
      0 ≤ x ∧ x ≤ 4 / 5 := by
    intro x hx
    obtain ⟨h1, h2⟩ := hbnd x hx
    have hlen : ((buildSteps c).length : ℚ) = 4 := by norm_num [buildSteps]
    rw [hlen] at h2
    norm_num at h1 h2
    exact ⟨h1, h2⟩
  rw [build_mod_cases]
  cases herr : (runSteps p (1 / 5) 1 (buildSteps c)).2 with
  | some e =>
    dsimp only
    exact ⟨hchain,
      fun x hx => ⟨(hbnd' x hx).1, (hbnd' x hx).2.trans (by norm_num)⟩,
      fun _ x hx => (hbnd' x hx).2⟩
  | none =>
    dsimp only
    rw [List.map_append]
    dsimp only [List.map_cons, List.map_nil]
    have htail : List.Chain' (· ≤ ·) [(4 : ℚ) / 5, 1] :=
      List.chain'_cons.mpr ⟨by norm_num, List.chain'_singleton 1⟩
    have htail_lb : ∀ y ∈ [(4 : ℚ) / 5, 1], 4 / 5 ≤ y := by
      intro y hy
      rcases List.mem_cons.mp hy with rfl | hy'
      · norm_num
      · rcases List.mem_cons.mp hy' with rfl | h
        · norm_num
        · exact absurd h (List.not_mem_nil y)
    refine ⟨?_, ?_, ?_⟩
    · exact chain'_append_cut (4 / 5) _ _ hchain htail
        (fun x hx => (hbnd' x hx).2) htail_lb
    · intro x hx
      rcases List.mem_append.mp hx with hx' | hx'
      · exact ⟨(hbnd' x hx').1, (hbnd' x hx').2.trans (by norm_num)⟩
      · rcases List.mem_cons.mp hx' with rfl | hx''
        · norm_num
        · rcases List.mem_cons.mp hx'' with rfl | h
          · norm_num
          · exact absurd h (List.not_mem_nil x)
    · intro h
      exact absurd rfl h

/-! ## The executor's job-record trace -/

theorem getD_getLast?_progress (l : List BuildJob) (d : BuildJob) :
    (l.getLast?.getD d).progress =
      (l.map BuildJob.progress).getLast?.getD d.progress := by
  cases h : l.getLast? with
  | none =>
    have hl : l = [] := List.getLast?_eq_none_iff.mp h
    subst hl; rfl
  | some a =>
    have hm : (l.map BuildJob.progress).getLast? = some a.progress := by
      rw [List.getLast?_map, h]; rfl
    rw [hm]; rfl

theorem jobTrace_progress_none (c : Option String) (ts : ℕ) (jid : String)
    (p : Project) (herr : (build_mod c ts p).error = none) :
    (jobTrace c ts jid p).map BuildJob.progress =
      0 :: 0 :: ((build_mod c ts p).events.map ProgressEvent.ratio ++ [1]) := by
  simp only [jobTrace, herr]
  simp [List.map_append, List.map_map]

theorem jobTrace_progress_some (c : Option String) (ts : ℕ) (jid : String)
    (p : Project) (e : BuildError) (herr : (build_mod c ts p).error = some e) :
    (jobTrace c ts jid p).map BuildJob.progress =
      (0 :: 0 :: (build_mod c ts p).events.map ProgressEvent.ratio) ++
        [(0 :: 0 :: (build_mod c ts p).events.map ProgressEvent.ratio).getLastD 0] := by
  simp only [jobTrace, herr]
  simp [List.map_append, List.map_map]
  rw [getD_getLast?_progress]
  simp [List.map_cons, List.map_map]
  rfl

/-- C1: for every job, the sequence of `progress` values written to its
record — and therefore the values observed across successive `get_job`
polls, which read a subsequence of these states — is monotonically
non-decreasing through the terminal state, and `progress` equals exactly
`1.0` only when the build succeeds (on every failure path all written
progress values stay at most `4/5`). -/
theorem progress_monotone_and_one_only_on_success (c : Option String)
    (ts : ℕ) (jid : String) (p : Project) :
    List.Chain' (· ≤ ·) ((jobTrace c ts jid p).map BuildJob.progress) ∧
    ∀ j ∈ jobTrace c ts jid p, j.progress = 1 →
      (build_mod c ts p).error = none := by
  obtain ⟨hchain, hbnd, hfail⟩ := build_mod_ok c ts p
  have hnn : ∀ x ∈ (build_mod c ts p).events.map ProgressEvent.ratio, 0 ≤ x :=
    fun x hx => (hbnd x hx).1
  cases herr : (build_mod c ts p).error with
  | none =>
    refine ⟨?_, fun _ _ _ => rfl⟩
    rw [jobTrace_progress_none c ts jid p herr]
    have h1 : List.Chain' (· ≤ ·)
        ((build_mod c ts p).events.map ProgressEvent.ratio ++ [1]) := by
      refine chain'_append_cut 1 _ _ hchain (List.chain'_singleton 1)
        (fun x hx => (hbnd x hx).2) ?_
      intro y hy
      rcases List.mem_cons.mp hy with rfl | h
      · exact le_refl 1
      · exact absurd h (List.not_mem_nil y)
    have hnn1 : ∀ x ∈ (build_mod c ts p).events.map ProgressEvent.ratio ++ [1],
        (0 : ℚ) ≤ x := by
      intro x hx
      rcases List.mem_append.mp hx with hx' | hx'
      · exact hnn x hx'
      · rcases List.mem_cons.mp hx' with rfl | h
        · norm_num
        · exact absurd h (List.not_mem_nil x)
    have h2 := chain'_cons_bound 0 _ h1 hnn1
    refine chain'_cons_bound 0 _ h2 ?_
    intro x hx
    rcases List.mem_cons.mp hx with rfl | hx'
    · exact le_refl 0
    · exact hnn1 x hx'
  | some e =>
    have hboundall : ∀ x ∈ (jobTrace c ts jid p).map BuildJob.progress,
        x ≤ 4 / 5 := by
      rw [jobTrace_progress_some c ts jid p e herr]
      have hcore : ∀ x ∈ (0 : ℚ) :: 0 ::
          (build_mod c ts p).events.map ProgressEvent.ratio, x ≤ 4 / 5 := by
        intro x hx
        rcases List.mem_cons.mp hx with rfl | hx'
        · norm_num
        · rcases List.mem_cons.mp hx' with rfl | hx''
          · norm_num
          · exact hfail (by simp [herr]) x hx''
      intro x hx
      rcases List.mem_append.mp hx with hx' | hx'
      · exact hcore x hx'
      · rcases List.mem_cons.mp hx' with rfl | h
        · rcases getLastD_cases ((0 : ℚ) :: 0 ::
            (build_mod c ts p).events.map ProgressEvent.ratio) 0 with h0 | h0
          · rw [h0]; norm_num
          · exact hcore _ h0
        · exact absurd h (List.not_mem_nil x)
    constructor
    · rw [jobTrace_progress_some c ts jid p e herr]
      apply chain'_append_getLastD
      have h2 := chain'_cons_bound 0 _ hchain hnn
      refine chain'_cons_bound 0 _ h2 ?_
      intro x hx
      rcases List.mem_cons.mp hx with rfl | hx'
      · exact le_refl 0
      · exact hnn x hx'
    · intro j hj hp
      have := hboundall j.progress (List.mem_map_of_mem BuildJob.progress hj)
      rw [hp] at this
      norm_num at this

theorem build_mod_archive_of_none (c : Option String) (ts : ℕ) (p : Project)
    (h : (build_mod c ts p).error = none) :
    (build_mod c ts p).archive = some (archive_build p.id ts) := by
  rw [build_mod_cases] at h ⊢
  cases hr : (runSteps p (1 / 5) 1 (buildSteps c)).2 with
  | some e => rw [hr] at h; exact absurd h (by simp)
  | none => rfl

/-- C2: every job's record trace decomposes as a non-terminal prefix
followed by exactly one terminal state; nothing is written after it
(terminal states are absorbing); `completed` implies progress `1.0` and
the artifact path of the archive that `_archive_build` created, and holds
exactly on success; `failed` implies a non-empty message and a null
artifact path. -/
theorem terminal_state_unique_absorbing (c : Option String) (ts : ℕ)
    (jid : String) (p : Project) :
    ∃ pre term, jobTrace c ts jid p = pre ++ [term] ∧
      (∀ j ∈ pre, isTerminal j.status = false) ∧
      isTerminal term.status = true ∧
      (term.status = "completed" ↔ (build_mod c ts p).error = none) ∧
      (term.status = "completed" →
        term.progress = 1 ∧ term.artifact_path = some (archive_build p.id ts)) ∧
      (term.status = "failed" → term.message ≠ "" ∧ term.artifact_path = none) := by
  have hpre : ∀ j ∈ ({ id := jid, project_id := p.id } : BuildJob) ::
      ({ id := jid, project_id := p.id, status := "running",
         message := "Starting build" } : BuildJob) ::
      (build_mod c ts p).events.map (fun e =>
        { id := jid, project_id := p.id, status := "running",
          progress := e.ratio, message := e.message,
          artifact_path := none : BuildJob }),
      isTerminal j.status = false := by
    intro j hj
    rcases List.mem_cons.mp hj with rfl | hj'
    · rfl
    · rcases List.mem_cons.mp hj' with rfl | hj''
      · rfl
      · obtain ⟨e, _, rfl⟩ := List.mem_map.mp hj''
        rfl
  have hart : ((({ id := jid, project_id := p.id } : BuildJob) ::
      ({ id := jid, project_id := p.id, status := "running",
         message := "Starting build" } : BuildJob) ::
      (build_mod c ts p).events.map (fun e =>
        { id := jid, project_id := p.id, status := "running",
          progress := e.ratio, message := e.message,
          artifact_path := none : BuildJob })).getLastD
        { id := jid, project_id := p.id }).artifact_path = none := by
    rcases getLastD_cases (({ id := jid, project_id := p.id } : BuildJob) ::
      ({ id := jid, project_id := p.id, status := "running",
         message := "Starting build" } : BuildJob) ::
      (build_mod c ts p).events.map (fun e =>
        { id := jid, project_id := p.id, status := "running",
          progress := e.ratio, message := e.message,
          artifact_path := none : BuildJob }))
      { id := jid, project_id := p.id } with h | h
    · rw [h]
    · rcases List.mem_cons.mp h with heq | h'
      · rw [heq]
      · rcases List.mem_cons.mp h' with heq | h''
        · rw [heq]
        · obtain ⟨e, _, heq⟩ := List.mem_map.mp h''
          rw [← heq]
  cases herr : (build_mod c ts p).error with
  | none =>
    simp only [jobTrace, herr]
    refine ⟨_, _, rfl, hpre, rfl, by simp, ?_, ?_⟩
    · intro _
      exact ⟨rfl, build_mod_archive_of_none c ts p herr⟩
    · intro h
      dsimp only at h
      exact absurd h (by decide)
  | some e =>
    simp only [jobTrace, herr]
    refine ⟨_, _, rfl, hpre, rfl, ?_, ?_, ?_⟩
    · constructor
      · intro h
        dsimp only at h
        exact absurd h (by decide)
      · intro h
        exact absurd h (by simp)
    · intro h
      dsimp only at h
      exact absurd h (by decide)
    · intro _
      exact ⟨build_mod_error_msg c ts p e herr, hart⟩

theorem heapModify_get? (f : BuildJob → BuildJob) :
    ∀ (l : List BuildJob) (r : ℕ), (heapModify l r f).get? r = (l.get? r).map f := by
  intro l
  induction l with
  | nil => intro r; cases r <;> rfl
  | cons j t ih =>
    intro r
    cases r with
    | zero => rfl
    | succ n => simpa [heapModify] using ih n

theorem heapModify_length (f : BuildJob → BuildJob) :
    ∀ (l : List BuildJob) (r : ℕ), (heapModify l r f).length = l.length := by
  intro l
  induction l with
  | nil => intro r; rfl
  | cons j t ih =>
    intro r
    cases r with
    | zero => rfl
    | succ n => simpa [heapModify] using ih n

/-! ## Audio-stage output lemmas -/

theorem sidecarOuts_mem (ds : List FsFile) (f : FsFile)
    (out : String × FileData) (h : out ∈ sidecarOuts ds f) :
    load_asset_metadata ds f ≠ [] ∧
    out = ("sound/" ++ f.name ++ ".json",
      FileData.metadataDump (load_asset_metadata ds f)) := by
  simp only [sidecarOuts] at h
  split at h
  · rename_i hm
    exact ⟨hm, List.mem_singleton.mp h⟩
  · exact absurd h (by simp)

theorem audioLoop_cons_valid (ds : List FsFile) (t i : ℕ) (f : FsFile)
    (fs : List FsFile) (hv : validate_audio f = none) :
    (audioLoop ds t i (f :: fs)).outputs =
      ("sound/" ++ f.name, FileData.verbatim f) ::
        (sidecarOuts ds f ++ (audioLoop ds t (i + 1) fs).outputs) := by
  rw [audioLoop, hv]
  rfl

theorem audioLoop_outputs_from_validated (ds : List FsFile) (t : ℕ) :
    ∀ (fs : List FsFile) (i : ℕ) (out : String × FileData),
      out ∈ (audioLoop ds t i fs).outputs →
      ∃ f ∈ fs, validate_audio f = none ∧
        (out = ("sound/" ++ f.name, .verbatim f) ∨
         (load_asset_metadata ds f ≠ [] ∧
          out = ("sound/" ++ f.name ++ ".json",
            .metadataDump (load_asset_metadata ds f)))) := by
  intro fs
  induction fs with
  | nil => intro i out h; exact absurd h (by simp [audioLoop])
  | cons f fs ih =>
    intro i out h
    cases hv : validate_audio f with
    | some e => rw [audioLoop, hv] at h; exact absurd h (by simp)
    | none =>
      rw [audioLoop_cons_valid ds t i f fs hv] at h
      rcases List.mem_cons.mp h with rfl | h'
      · exact ⟨f, List.mem_cons_self f fs, hv, Or.inl rfl⟩
      · rcases List.mem_append.mp h' with h'' | h''
        · obtain ⟨hm, rfl⟩ := sidecarOuts_mem ds f out h''
          exact ⟨f, List.mem_cons_self f fs, hv, Or.inr ⟨hm, rfl⟩⟩
        · obtain ⟨g, hg, hvg, hout⟩ := ih (i + 1) out h''
          exact ⟨g, List.mem_cons_of_mem f hg, hvg, hout⟩

/-! ## Claim theorems -/

/-- C3: for the pipeline's `n = 4` stages, `build_mod` allocates each
stage the equal span `s = 1/(n+1) = 1/5 = 0.2`; the four stage spans plus
the archiving span sum to exactly `1.0`; on a project exercising every
stage, the callback trace shows the boundary report `(i-1)·s` before
stage `i`, each stage's sub-progress `r` remapped to `(i-1)·s + r·s`,
the report `n·s` after all stages, and the final `1.0` after archiving. -/
theorem pipeline_progress_slicing :
    (1 : ℚ) / (((buildSteps none).length : ℚ) + 1) = 1 / 5 ∧
    (0.2 : ℚ) = 1 / 5 ∧
    ((buildSteps none).length : ℚ) * (1 / 5) + 1 / 5 = 1 ∧
    (build_mod none 0 demoProject).events.map ProgressEvent.ratio =
      [0, 1/5, 1/5, 2/5, 2/5, 3/5, 3/5, 4/5, 4/5, 1] ∧
    (build_mod none 0 demoProject).events.map ProgressEvent.step =
      ["collect_project_files", "collect", "convert_dds_assets", "dds",
       "package_audio_tracks", "audio", "write_descriptor", "descriptor",
       "archive", "archive"] := by
  have hdds : str_lower ".dds" = ".dds" := by decide
  have hogg : str_lower ".ogg" = ".ogg" := by decide
  refine ⟨by norm_num [buildSteps], by norm_num, by norm_num [buildSteps], ?_, ?_⟩ <;>
    norm_num [build_mod, buildSteps, runSteps, collect_project_files,
      convert_dds_assets, package_audio_tracks, write_descriptor, ddsLoop,
      audioLoop, convert_to_dds, validate_audio, sidecarOuts, demoProject,
      ddsFile, oggFile, List.enum, List.enumFrom, archive_build, hdds, hogg]

/-- C4 counterexample: the claim says stages on empty input "still report
completion to the progress callback".  On a project with zero files and
no asset directories, all three file-driven stages invoke the callback
zero times — there is no completion report (and in particular no event
with ratio `1`), refuting the claim at this concrete input. -/
theorem empty_input_stages_report_no_completion :
    (collect_project_files emptyProject).events = [] ∧
    (convert_dds_assets none emptyProject).events = [] ∧
    (package_audio_tracks emptyProject).events = [] := by
  refine ⟨rfl, rfl, rfl⟩

/-- C4 (amended): Collect run against a project with zero files computes
`total = max(count, 1)` and completes without error, and ConvertTextures
or PackageAudio run against a project with no asset location of that kind
raise no error; each such stage invokes the progress callback zero times
and writes nothing, and the enclosing pipeline still completes, its own
boundary reports carrying overall progress past the stage to `1.0`. -/
theorem empty_input_stages_no_error :
    (collect_project_files emptyProject).error = none ∧
    (collect_project_files emptyProject).outputs = [] ∧
    (convert_dds_assets none emptyProject).error = none ∧
    (convert_dds_assets none emptyProject).outputs = [] ∧
    (package_audio_tracks emptyProject).error = none ∧
    (package_audio_tracks emptyProject).outputs = [] ∧
    (build_mod none 0 emptyProject).error = none ∧
    (build_mod none 0 emptyProject).events.map ProgressEvent.ratio =
      [0, 1/5, 2/5, 3/5, 4/5, 4/5, 1] := by
  refine ⟨rfl, rfl, rfl, rfl, rfl, rfl, ?_, ?_⟩ <;>
    norm_num [build_mod, buildSteps, runSteps, collect_project_files,
      convert_dds_assets, package_audio_tracks, write_descriptor,
      emptyProject, List.enum, List.enumFrom]

/-- C8: descriptor rendering: with no manifest, project `"abc"` renders
exactly the lines `version="1.0"`, `name="OpenCK3 abc"` (the tool-default
name) and `supported_version="1.11.*"`, with no `tags` line; when the
manifest supplies tags `["flavor", "ui"]` the rendered descriptor gains
exactly the line `tags={ flavor,ui }`. -/
theorem descriptor_rendering :
    render_descriptor_lines "abc" {} =
      ["version=\"1.0\"", "name=\"OpenCK3 abc\"",
       "supported_version=\"1.11.*\""] ∧
    render_descriptor "abc" {} =
      "version=\"1.0\"\nname=\"OpenCK3 abc\"\nsupported_version=\"1.11.*\"\n" ∧
    render_descriptor_lines "abc" { tags := some ["flavor", "ui"] } =
      ["version=\"1.0\"", "name=\"OpenCK3 abc\"",
       "supported_version=\"1.11.*\"", "tags=\x7b flavor,ui \x7d"] := by
  refine ⟨by decide, by decide, by decide⟩

/-- C5 counterexample: `get_job` returns the reference stored in
`self.jobs`, not a value copy.  Concretely: create a job, read it through
the reference `get_job` returned, let the executor apply one `update`
through that same reference — the record observed through the earlier
`get_job` result has changed, refuting "unchanged by any registry
mutation performed after the get call returns". -/
theorem get_job_snapshot_refuted :
    get_job (start_build Registry.empty "job-1" "proj").1 "job-1" =
      some (start_build Registry.empty "job-1" "proj").2 ∧
    readJob (start_build Registry.empty "job-1" "proj").1
        (start_build Registry.empty "job-1" "proj").2 =
      some (initialJob "job-1" "proj") ∧
    readJob
        (update_job (start_build Registry.empty "job-1" "proj").1
          (start_build Registry.empty "job-1" "proj").2
          (updateProgress 1 "Halfway"))
        (start_build Registry.empty "job-1" "proj").2 ≠
      readJob (start_build Registry.empty "job-1" "proj").1
        (start_build Registry.empty "job-1" "proj").2 := by
  refine ⟨by decide, by decide, by decide⟩

/-- C5 (amended): `get_job` and `start_build` hand out the live job
record — a reference into the registry's heap, not a value snapshot.  A
registry mutation performed through any reference after a `get_job` call
is visible through the reference that call returned: `update_job` leaves
the dictionary (and hence every `get_job` answer) unchanged while the
record observed through an already-returned reference becomes the mutated
one. -/
theorem get_job_live_reference (s : Registry) (r : ℕ)
    (f : BuildJob → BuildJob) (jid : String) :
    get_job (update_job s r f) jid = get_job s jid ∧
    readJob (update_job s r f) r = (readJob s r).map f := by
  refine ⟨rfl, ?_⟩
  unfold readJob update_job
  exact heapModify_get? f s.heap r

/-- C6: with no converter resolved, `_convert_to_dds` on a source whose
lowercased suffix is not `.dds` raises the `BuildError` whose message
says no converter is available, and a source already suffixed `.dds` is
copied verbatim whether or not a converter is present; at stage level, a
lone `.png` texture fails the stage with that error while a lone `.dds`
texture yields its verbatim copy at `gfx/<stem>.dds`. -/
theorem dds_converter_fallback (f : FsFile) :
    (str_lower f.suffix ≠ ".dds" →
      convert_to_dds none f =
        .error ⟨"No DDS converter (ImageMagick or texconv) available"⟩) ∧
    (str_lower f.suffix = ".dds" →
      ∀ c : Option String, convert_to_dds c f = .ok (.verbatim f)) ∧
    (convert_dds_assets none { id := "p", ddsRoot := some [pngFile] }).error =
      some ⟨"No DDS converter (ImageMagick or texconv) available"⟩ ∧
    (convert_dds_assets none { id := "p", ddsRoot := some [ddsFile] }).error =
      none ∧
    (convert_dds_assets none { id := "p", ddsRoot := some [ddsFile] }).outputs =
      [("gfx/flag.dds", .verbatim ddsFile)] := by
  refine ⟨?_, ?_, by decide, by decide, by decide⟩
  · intro h
    unfold convert_to_dds
    rw [if_neg h]
  · intro h c
    unfold convert_to_dds
    rw [if_pos h]

/-- Witness for C6 at concrete inputs: a `.png` source with no converter
fails with the "no converter available" error; a `.dds` source succeeds
verbatim even with no converter. -/
theorem dds_converter_fallback_witness :
    convert_to_dds none pngFile =
      .error ⟨"No DDS converter (ImageMagick or texconv) available"⟩ ∧
    convert_to_dds none ddsFile = .ok (.verbatim ddsFile) :=
  ⟨(dds_converter_fallback pngFile).1 (by decide),
   (dds_converter_fallback ddsFile).2.1 (by decide) none⟩

/-- C7: the audio stage validates each file against the two-entry
allow-list before copying it, so every output of the stage stems from a
file that passed validation — a rejected file is never copied, not even
partially; concretely, a `.mp3` file aborts the stage with the
`Unsupported audio format` error and nothing at or after it is copied,
while `.ogg` and `.wav` files are packaged successfully. -/
theorem audio_allowlist_enforcement (ds : List FsFile) (t i : ℕ)
    (fs : List FsFile) :
    (∀ out ∈ (audioLoop ds t i fs).outputs,
      ∃ f ∈ fs, validate_audio f = none ∧
        (out = ("sound/" ++ f.name, .verbatim f) ∨
         (load_asset_metadata ds f ≠ [] ∧
          out = ("sound/" ++ f.name ++ ".json",
            .metadataDump (load_asset_metadata ds f))))) ∧
    validate_audio mp3File = some ⟨"Unsupported audio format: .mp3"⟩ ∧
    validate_audio oggFile = none ∧
    validate_audio wavFile = none ∧
    (package_audio_tracks audioMixProject).error =
      some ⟨"Unsupported audio format: .mp3"⟩ ∧
    (package_audio_tracks audioMixProject).outputs =
      [("sound/a.ogg", .verbatim oggFile)] ∧
    (package_audio_tracks audioOkProject).error = none ∧
    (package_audio_tracks audioOkProject).outputs =
      [("sound/a.ogg", .verbatim oggFile), ("sound/c.wav", .verbatim wavFile)] :=
  ⟨audioLoop_outputs_from_validated ds t fs i, by decide, by decide, by decide,
   by decide, by decide, by decide, by decide⟩

/-- Witness for C7 at a concrete input: the single output of packaging
one `.ogg` file stems from a validated file of the input list. -/
theorem audio_allowlist_enforcement_witness :
    ∃ f ∈ [oggFile], validate_audio f = none ∧
      (("sound/a.ogg", FileData.verbatim oggFile) =
          ("sound/" ++ f.name, .verbatim f) ∨
       (load_asset_metadata [oggFile] f ≠ [] ∧
        ("sound/a.ogg", FileData.verbatim oggFile) =
          ("sound/" ++ f.name ++ ".json",
            .metadataDump (load_asset_metadata [oggFile] f)))) :=
  (audio_allowlist_enforcement [oggFile] 1 1 [oggFile]).1
    ("sound/a.ogg", FileData.verbatim oggFile) (by decide)

/-- C9: the audio stage iterates *every* regular file of the audio asset
directory (build.py:162 filters `iterdir()` by `is_file()` only) — and
that directory is exactly where `api.upload_audio` writes each track's
JSON sidecar (`destination.with_suffix(destination.suffix + ".json")`),
the same path `storage.load_asset_metadata` reads back.  So whenever a
sidecar exists beside a source file, the sidecar `.json` is itself one of
the iterated files and fails `_validate_audio`, aborting the stage (and
hence the build) with `Unsupported audio format: .json` — the sidecar is
never delivered alongside the packaged audio file in any artifact.  At
the failing input below: `load_asset_metadata` does find the sidecar, the
stage raises the `.json` validation error in either iteration order, and
whether the sidecar write even happens before the abort depends on the
directory order (the claim's copying code runs at most transiently into
a working directory that is then discarded). -/
theorem sidecar_file_aborts_audio_stage :
    load_asset_metadata [trackFile, trackSidecar] trackFile =
      [("artist", "x")] ∧
    validate_audio trackSidecar = some ⟨"Unsupported audio format: .json"⟩ ∧
    (package_audio_tracks sidecarProject).error =
      some ⟨"Unsupported audio format: .json"⟩ ∧
    (package_audio_tracks sidecarProject).outputs =
      [("sound/track.ogg", .verbatim trackFile),
       ("sound/track.ogg.json", .metadataDump [("artist", "x")])] ∧
    (package_audio_tracks sidecarFirstProject).error =
      some ⟨"Unsupported audio format: .json"⟩ ∧
    (package_audio_tracks sidecarFirstProject).outputs = [] ∧
    (build_mod none 0 sidecarProject).error =
      some ⟨"Unsupported audio format: .json"⟩ := by
  refine ⟨by decide, by decide, by decide, by decide, by decide, by decide, ?_⟩
  rw [build_mod_cases]
  have hogg : str_lower ".ogg" = ".ogg" := by decide
  have hjson : str_lower ".json" = ".json" := by decide
  have hne1 : ".json" ≠ ".ogg" := by decide
  have hne2 : ".json" ≠ ".wav" := by decide
  have h : (runSteps sidecarProject (1 / 5) 1 (buildSteps none)).2 =
      some ⟨"Unsupported audio format: .json"⟩ := by
    norm_num [runSteps, buildSteps, collect_project_files, convert_dds_assets,
      package_audio_tracks, audioLoop, validate_audio, sidecarProject,
      trackFile, trackSidecar, List.enum, List.enumFrom, hogg, hjson,
      hne1, hne2]
    decide
  rw [h]

/-- C10: audio extension validation is case-insensitive: `_validate_audio`
accepts a file exactly when the lowercased suffix is `.ogg` or `.wav`, so
letter-case variants such as `.OGG` and `.Wav` are accepted while `.mp3`
is rejected in any letter case. -/
theorem validate_audio_case_insensitive (f : FsFile) :
    (validate_audio f = none ↔
      (str_lower f.suffix = ".ogg" ∨ str_lower f.suffix = ".wav")) ∧
    validate_audio { stem := "a", suffix := ".OGG" } = none ∧
    validate_audio { stem := "a", suffix := ".Wav" } = none ∧
    validate_audio { stem := "a", suffix := ".MP3" } =
      some ⟨"Unsupported audio format: .MP3"⟩ ∧
    validate_audio { stem := "a", suffix := ".mp3" } =
      some ⟨"Unsupported audio format: .mp3"⟩ := by
  refine ⟨?_, by decide, by decide, by decide, by decide⟩
  simp [validate_audio]
  tauto

/-- Witness for C1 at a concrete input: the terminal record of a
successful build carries progress exactly `1`, and the claim theorem
applied to it yields the success of that build. -/
theorem progress_monotone_witness :
    (build_mod none 0 emptyProject).error = none := by
  refine (progress_monotone_and_one_only_on_success none 0 "job-1" emptyProject).2
    { id := "job-1", project_id := "abc", status := "completed", progress := 1,
      message := "Build completed",
      artifact_path := (build_mod none 0 emptyProject).archive } ?_ rfl
  norm_num [jobTrace, build_mod, buildSteps, runSteps, collect_project_files,
    convert_dds_assets, package_audio_tracks, write_descriptor, emptyProject,
    List.enum, List.enumFrom]

/-- Witness for C2 at a concrete input. -/
theorem terminal_state_unique_absorbing_witness :
    ∃ pre term, jobTrace none 0 "job-1" emptyProject = pre ++ [term] ∧
      (∀ j ∈ pre, isTerminal j.status = false) ∧
      isTerminal term.status = true ∧
      (term.status = "completed" ↔ (build_mod none 0 emptyProject).error = none) ∧
      (term.status = "completed" →
        term.progress = 1 ∧
          term.artifact_path = some (archive_build emptyProject.id 0)) ∧
      (term.status = "failed" → term.message ≠ "" ∧ term.artifact_path = none) :=
  terminal_state_unique_absorbing none 0 "job-1" emptyProject
